import Mathlib

/-!
Shallow embedding of the storybook-to-markdown extraction core
(`parser.ts`): strings are modelled as `List Char`, the JS regular
expressions used by the source are modelled as deterministic scanners
with the same leftmost-match / lazy-vs-greedy semantics, and the
line-oriented export scanner is modelled by recursion on the remaining
line count.
-/

/-- Whitespace characters recognised by the JS `\s` class (ASCII part). -/
def isJsWs (c : Char) : Bool :=
  c = ' ' || c = '\t' || c = '\n' || c = '\r' || c = '\x0b' || c = '\x0c'

/-- Word characters recognised by the JS `\w` class. -/
def isWordChar (c : Char) : Bool :=
  c.isAlphanum || c = '_'

/-- JS `String.prototype.trim` on a character list. -/
def jsTrim (l : List Char) : List Char :=
  ((l.dropWhile isJsWs).reverse.dropWhile isJsWs).reverse

/-- Test whether `pat` is an initial segment of `l` (anchored match). -/
def leads : List Char → List Char → Bool
  | [], _ => true
  | _ :: _, [] => false
  | p :: ps, c :: cs => p = c && leads ps cs

/-- Position of the first occurrence of `needle` in `hay`
(JS `String.prototype.indexOf`), as an option instead of `-1`. -/
def firstHit (needle : List Char) : List Char → Option Nat
  | [] => if leads needle [] then some 0 else none
  | c :: cs =>
    if leads needle (c :: cs) then some 0
    else (firstHit needle cs).map (· + 1)

/-- JS `hay.indexOf(needle, start)`: first occurrence at or after `start`. -/
def indexOfFrom (needle hay : List Char) (start : Nat) : Option Nat :=
  (firstHit needle (hay.drop start)).map (· + start)

/-- JS `content.split('\n')` on a character list. -/
def splitLines : List Char → List (List Char)
  | [] => [[]]
  | c :: rest =>
    if c = '\n' then [] :: splitLines rest
    else
      match splitLines rest with
      | [] => [[c]]
      | l :: ls => (c :: l) :: ls

/-- Join captured lines back with newlines (JS `Array.prototype.join('\n')`). -/
def joinLines (ls : List (List Char)) : List Char :=
  List.intercalate ['\n'] ls

/-- Leftmost-match regex driver: try the anchored matcher `m` on every
suffix of the subject, left to right, and return the first success. -/
def scanFor (m : List Char → Option (List Char)) : List Char → Option (List Char)
  | [] => m []
  | c :: rest =>
    match m (c :: rest) with
    | some r => some r
    | none => scanFor m rest

/-- Lazy quantifier: return the shortest prefix whose complement satisfies
`stop` (the embedding of `([\s\S]*?)` followed by a terminator). -/
def lazySplit (stop : List Char → Bool) : List Char → Option (List Char)
  | [] => if stop [] then some [] else none
  | c :: rest =>
    if stop (c :: rest) then some []
    else (lazySplit stop rest).map (fun cap => c :: cap)

/-- Number of consecutive backslashes immediately before position `pos`
(`countPrecedingBackslashes` in the source). -/
def countPrecedingBackslashes (content : List Char) : Nat → Nat
  | 0 => 0
  | p + 1 =>
    if content.get? p = some '\\' then countPrecedingBackslashes content p + 1
    else 0

/-- Character loop of `extractBacktickContent`: walk the suffix of
`content` that starts at position `pos`, stopping at the first backtick
preceded by an even number of backslashes. -/
def btAux (content : List Char) : List Char → Nat → List Char
  | [], _ => []
  | c :: rest, pos =>
    if c = '\x60' ∧ countPrecedingBackslashes content pos % 2 = 0 then []
    else c :: btAux content rest (pos + 1)

/-- `extractBacktickContent` from the source: collect characters after the
opening backtick at `startPos` up to the matching unescaped backtick, then
trim. -/
def extractBacktickContent (content : List Char) (startPos : Nat) : List Char :=
  jsTrim (btAux content (content.drop (startPos + 1)) (startPos + 1))

/-- Fallback pattern list tried by `extractMetaSection` when `const meta`
is not found. -/
def metaPatterns : List (List Char) :=
  [("const meta =").data, ("const meta:").data, ("const meta =").data]

/-- First pattern of the fallback list that occurs in the content
(the `for ... break` loop of `extractMetaSection`). -/
def firstHitAny : List (List Char) → List Char → Option Nat
  | [], _ => none
  | p :: ps, content =>
    match firstHit p content with
    | some i => some i
    | none => firstHitAny ps content

/-- `extractMetaSection` from the source: span from the first `const meta`
marker to the following `export default meta` marker. -/
def extractMetaSection (content : List Char) : Option (List Char) :=
  let primary := firstHit (("const meta").data) content
  let metaStart :=
    match primary with
    | some i => some i
    | none => firstHitAny metaPatterns content
  match metaStart with
  | none => none
  | some i =>
    match indexOfFrom (("export default meta").data) content i with
    | none => none
    | some j => some ((content.drop i).take (j - i))

/-- Meta record (`MetaData` in the source types): the description is
optional in the interface. -/
structure MetaData where
  componentDescription : Option (List Char)
deriving DecidableEq, Repr

/-- `parseMetaData` from the source: locate the meta section, the
`component:` key, the following backtick, and extract the description. -/
def parseMetaData (content : List Char) : Option MetaData :=
  match extractMetaSection content with
  | none => none
  | some metaSection =>
    match firstHit (("component:").data) metaSection with
    | none => none
    | some componentStart =>
      match indexOfFrom (("\x60").data) metaSection componentStart with
      | none => none
      | some backtickStart =>
        some { componentDescription := some (extractBacktickContent metaSection backtickStart) }

/-- Brace-level update of one line: the inner `for (const char of line)`
loop shared by the body-capture routines. -/
def braceDelta (level : Int) (line : List Char) : Int :=
  line.foldl
    (fun lv c => if c = '\x7b' then lv + 1 else if c = '\x7d' then lv - 1 else lv)
    level

/-- Line loop of `extractStoryContent`: collect lines while the brace
level stays positive, appending each line before counting its braces. -/
def captureFrom : List (List Char) → Int → List (List Char)
  | [], _ => []
  | line :: rest, level =>
    if 0 < level then line :: captureFrom rest (braceDelta level line) else []

/-- Line loop of `countStoryLines`: count the same lines `captureFrom`
collects. -/
def countFrom : List (List Char) → Int → Nat
  | [], _ => 0
  | line :: rest, level =>
    if 0 < level then countFrom rest (braceDelta level line) + 1 else 0

/-- `extractStoryContent` from the source (object-shaped export body). -/
def extractStoryContent (lines : List (List Char)) (startIndex : Nat) : List Char :=
  joinLines (captureFrom (lines.drop (startIndex + 1)) 1)

/-- `countStoryLines` from the source: one for the header line plus the
captured lines. -/
def countStoryLines (lines : List (List Char)) (startIndex : Nat) : Nat :=
  1 + countFrom (lines.drop (startIndex + 1)) 1

/-- Line loop of `extractFunctionStoryContent` (verbatim duplicate of the
object-shaped loop in the source). -/
def captureFromF : List (List Char) → Int → List (List Char)
  | [], _ => []
  | line :: rest, level =>
    if 0 < level then line :: captureFromF rest (braceDelta level line) else []

/-- Line loop of `countFunctionStoryLines` (verbatim duplicate). -/
def countFromF : List (List Char) → Int → Nat
  | [], _ => 0
  | line :: rest, level =>
    if 0 < level then countFromF rest (braceDelta level line) + 1 else 0

/-- `extractFunctionStoryContent` from the source (function-shaped body). -/
def extractFunctionStoryContent (lines : List (List Char)) (startIndex : Nat) : List Char :=
  joinLines (captureFromF (lines.drop (startIndex + 1)) 1)

/-- `countFunctionStoryLines` from the source. -/
def countFunctionStoryLines (lines : List (List Char)) (startIndex : Nat) : Nat :=
  1 + countFromF (lines.drop (startIndex + 1)) 1

/-- Anchored match of `/^export const (\w+): Story = \{\s*$/`. -/
def matchObjectHeader (line : List Char) : Option (List Char) :=
  if leads (("export const ").data) line then
    let rest := line.drop 13
    let name := rest.takeWhile isWordChar
    let rest2 := rest.dropWhile isWordChar
    if name ≠ [] ∧ leads ((": Story = \x7b").data) rest2 ∧ (rest2.drop 11).all isJsWs then
      some name
    else none
  else none

/-- Anchored match of `/^export const (\w+) = \(\) => \{/`. -/
def matchFuncHeader (line : List Char) : Option (List Char) :=
  if leads (("export const ").data) line then
    let rest := line.drop 13
    let name := rest.takeWhile isWordChar
    let rest2 := rest.dropWhile isWordChar
    if name ≠ [] ∧ leads ((" = () => \x7b").data) rest2 then some name else none
  else none

/-- Anchored match of `/^export const (\w+): Story = \(/`. -/
def matchFuncVariant (line : List Char) : Option (List Char) :=
  if leads (("export const ").data) line then
    let rest := line.drop 13
    let name := rest.takeWhile isWordChar
    let rest2 := rest.dropWhile isWordChar
    if name ≠ [] ∧ leads ((": Story = (").data) rest2 then some name else none
  else none

/-- Header dispatch of `parseStoryExports`: object format first, then the
two function formats; the boolean records `isObjectFormat`. -/
def lineMatch (line : List Char) : Option (List Char × Bool) :=
  match matchObjectHeader line with
  | some n => some (n, true)
  | none =>
    match matchFuncHeader line with
    | some n => some (n, false)
    | none =>
      match matchFuncVariant line with
      | some n => some (n, false)
      | none => none

/-- Anchored match of `/name:\s*["']([^"']+)["']/` at the head of the
suffix: key, greedy whitespace, a quote, a nonempty run of non-quote
characters, a closing quote. -/
def matchNameAt (suffix : List Char) : Option (List Char) :=
  if leads (("name:").data) suffix then
    let r1 := (suffix.drop 5).dropWhile isJsWs
    match r1 with
    | q :: r2 =>
      if q = '\x22' ∨ q = '\x27' then
        let cap := r2.takeWhile (fun c => c ≠ '\x22' ∧ c ≠ '\x27')
        let r3 := r2.dropWhile (fun c => c ≠ '\x22' ∧ c ≠ '\x27')
        if cap ≠ [] ∧ r3 ≠ [] then some cap else none
      else none
    | [] => none
  else none

/-- `extractStoryName` from the source. -/
def extractStoryName (storyContent : List Char) : Option (List Char) :=
  scanFor matchNameAt storyContent

/-- Terminator `(?:,\s*\}|\})` of the `story:` regex: a comma followed by
whitespace and a closing brace, or a bare closing brace. -/
def storyTermAt (rest : List Char) : Bool :=
  (match rest with
   | ',' :: r =>
     match r.dropWhile isJsWs with
     | '\x7d' :: _ => true
     | _ => false
   | _ => false) ||
  (match rest with
   | '\x7d' :: _ => true
   | _ => false)

/-- Anchored match of `/story:\s*([\s\S]*?)(?:,\s*\}|\})/` at the head of
the suffix. -/
def matchStoryAt (suffix : List Char) : Option (List Char) :=
  if leads (("story:").data) suffix then
    lazySplit storyTermAt ((suffix.drop 6).dropWhile isJsWs)
  else none

/-- `cleanQuotes` from the source: strip one matching pair of double or
single quotes, otherwise strip any leading and trailing quote character. -/
def cleanQuotes (str : List Char) : List Char :=
  if str.head? = some '\x22' ∧ str.getLast? = some '\x22' then (str.drop 1).dropLast
  else if str.head? = some '\x27' ∧ str.getLast? = some '\x27' then (str.drop 1).dropLast
  else
    let s1 := if str.head? = some '\x22' ∨ str.head? = some '\x27' then str.drop 1 else str
    if s1.getLast? = some '\x22' ∨ s1.getLast? = some '\x27' then s1.dropLast else s1

/-- `extractStoryDescription` from the source: first `story:` match,
trimmed, with quotes cleaned. -/
def extractStoryDescription (storyContent : List Char) : Option (List Char) :=
  (scanFor matchStoryAt storyContent).map (fun cap => cleanQuotes (jsTrim cap))

/-- `extractApiDescription` from the source: `story:` key, following
backtick, escape-aware backtick span. -/
def extractApiDescription (storyContent : List Char) : Option (List Char) :=
  match firstHit (("story:").data) storyContent with
  | none => none
  | some storyStart =>
    match indexOfFrom (("\x60").data) storyContent storyStart with
    | none => none
    | some backtickStart => some (extractBacktickContent storyContent backtickStart)

/-- Anchored match of `/render:\s*\(\)\s*=>\s*\{([\s\S]*?)\n  \}/` at the
head of the suffix. -/
def matchRenderAt (suffix : List Char) : Option (List Char) :=
  if leads (("render:").data) suffix then
    let r1 := (suffix.drop 7).dropWhile isJsWs
    if leads (("()").data) r1 then
      let r2 := (r1.drop 2).dropWhile isJsWs
      if leads (("=>").data) r2 then
        let r3 := (r2.drop 2).dropWhile isJsWs
        match r3 with
        | c :: body =>
          if c = '\x7b' then lazySplit (fun rest => leads (("\n  \x7d").data) rest) body
          else none
        | [] => none
      else none
    else none
  else none

/-- Terminator `\s*\)\s*;` of the parenthesised-return regex. -/
def parenSemiTermAt (rest : List Char) : Bool :=
  match rest.dropWhile isJsWs with
  | ')' :: r2 =>
    match r2.dropWhile isJsWs with
    | ';' :: _ => true
    | _ => false
  | _ => false

/-- Anchored match of `/return\s*\(\s*([\s\S]*?)\s*\)\s*;/` at the head of
the suffix (fallback path, no end anchor). -/
def matchReturnParenAt (suffix : List Char) : Option (List Char) :=
  if leads (("return").data) suffix then
    let r1 := (suffix.drop 6).dropWhile isJsWs
    match r1 with
    | c :: body =>
      if c = '(' then lazySplit parenSemiTermAt (body.dropWhile isJsWs) else none
    | [] => none
  else none

/-- Anchored match of `/return\s+([\s\S]*?);/` at the head of the suffix
(fallback path, no end anchor). -/
def matchReturnSimpleAt (suffix : List Char) : Option (List Char) :=
  if leads (("return").data) suffix then
    let rest := suffix.drop 6
    if (rest.takeWhile isJsWs).length = 0 then none
    else
      lazySplit
        (fun r => match r with | ';' :: _ => true | _ => false)
        (rest.dropWhile isJsWs)
  else none

/-- Anchored match of `/return\s*\(([\s\S]*?)\);\s*$/` on the render body:
the capture ends at the first `);` that is followed only by whitespace. -/
def matchParenDollarAt (suffix : List Char) : Option (List Char) :=
  if leads (("return").data) suffix then
    let r1 := (suffix.drop 6).dropWhile isJsWs
    match r1 with
    | c :: body =>
      if c = '(' then
        lazySplit
          (fun r => match r with | ')' :: ';' :: r3 => r3.all isJsWs | _ => false)
          body
      else none
    | [] => none
  else none

/-- Anchored match of `/return\s+([^;]+);\s*$/` on the render body: a
greedy nonempty run without semicolons, then `;` and trailing whitespace.
When the run after the whitespace would be empty, the backtracking JS
engine gives back one whitespace character to the capture. -/
def matchSimpleDollarAt (suffix : List Char) : Option (List Char) :=
  if leads (("return").data) suffix then
    let rest := suffix.drop 6
    let w := rest.takeWhile isJsWs
    if w.length = 0 then none
    else
      let p0 := rest.dropWhile isJsWs
      let cap := p0.takeWhile (fun c => c ≠ ';')
      let r2 := p0.dropWhile (fun c => c ≠ ';')
      match r2 with
      | ';' :: r3 =>
        if r3.all isJsWs then
          if cap ≠ [] then some cap
          else if 2 ≤ w.length then w.getLast?.map (fun ch => [ch])
          else none
        else none
      | _ => none
  else none

/-- Anchored match of `/return\s+([\s\S]*?);\s*$/` on the render body. -/
def matchLazyDollarAt (suffix : List Char) : Option (List Char) :=
  if leads (("return").data) suffix then
    let rest := suffix.drop 6
    if (rest.takeWhile isJsWs).length = 0 then none
    else
      lazySplit
        (fun r => match r with | ';' :: r2 => r2.all isJsWs | _ => false)
        (rest.dropWhile isJsWs)
  else none

/-- `extractRenderCode` from the source: try the `render:`-keyed body
first and apply the end-anchored return rules inside it; otherwise apply
the unanchored return rules to the whole body. -/
def extractRenderCode (storyContent : List Char) : Option (List Char) :=
  match scanFor matchRenderAt storyContent with
  | none =>
    match scanFor matchReturnParenAt storyContent with
    | some cap => some (jsTrim cap)
    | none =>
      match scanFor matchReturnSimpleAt storyContent with
      | some cap => some (jsTrim cap)
      | none => none
  | some rawBody =>
    let renderCode := jsTrim rawBody
    match scanFor matchParenDollarAt renderCode with
    | some cap => some (jsTrim cap)
    | none =>
      match scanFor matchSimpleDollarAt renderCode with
      | some cap => some (jsTrim cap)
      | none =>
        match scanFor matchLazyDollarAt renderCode with
        | some cap => some (jsTrim cap)
        | none => none

/-- Kind tag of a story record (`'api' | 'demo'` in the source types). -/
inductive StoryType where
  | api
  | demo
deriving DecidableEq, Repr

/-- Story record (`Story` in the source types); fields the constructors do
not set are absent. -/
structure Story where
  name : List Char
  type : StoryType
  displayName : Option (List Char) := none
  description : Option (List Char) := none
  code : Option (List Char) := none
deriving DecidableEq, Repr

/-- `createApiStory` from the source: fixed name `API`, reference kind,
escape-aware `story:` description; no display name or code fields. -/
def createApiStory (storyContent : List Char) : Story :=
  { name := ("API").data
    type := StoryType.api
    description := extractApiDescription storyContent }

/-- `createDemoStory` from the source. -/
def createDemoStory (storyName storyContent : List Char) : Story :=
  { name := storyName
    type := StoryType.demo
    displayName := extractStoryName storyContent
    description := extractStoryDescription storyContent
    code := extractRenderCode storyContent }

/-- Scanner loop of `parseStoryExports`: starting at line `i`, match the
header shapes, capture the body, build the record, and jump past the
consumed lines (or advance one line on no match). -/
def parseAux (lines : List (List Char)) (i : Nat) : List Story :=
  if h : i < lines.length then
    match lineMatch lines[i] with
    | some (storyName, isObjectFormat) =>
      let storyContent :=
        if isObjectFormat then extractStoryContent lines i
        else extractFunctionStoryContent lines i
      let story :=
        if storyName = ("API").data then createApiStory storyContent
        else createDemoStory storyName storyContent
      story ::
        parseAux lines
          (i + (if isObjectFormat then countStoryLines lines i else countFunctionStoryLines lines i))
    | none => parseAux lines (i + 1)
  else []
termination_by lines.length - i
decreasing_by
  · refine Nat.sub_lt_sub_left h ?_
    cases isObjectFormat <;> simp [countStoryLines, countFunctionStoryLines]
  · exact Nat.sub_lt_sub_left h (by omega)

/-- `parseStoryExports` from the source. -/
def parseStoryExports (content : List Char) : List Story :=
  parseAux (splitLines content) 0

/-- Position-and-name trace of the scanner: the list of (line index,
export name) pairs at which `parseAux` matches a header. -/
def matchedHeaders (lines : List (List Char)) (i : Nat) : List (Nat × List Char) :=
  if h : i < lines.length then
    match lineMatch lines[i] with
    | some (storyName, isObjectFormat) =>
      (i, storyName) ::
        matchedHeaders lines
          (i + (if isObjectFormat then countStoryLines lines i else countFunctionStoryLines lines i))
    | none => matchedHeaders lines (i + 1)
  else []
termination_by lines.length - i
decreasing_by
  · refine Nat.sub_lt_sub_left h ?_
    cases isObjectFormat <;> simp [countStoryLines, countFunctionStoryLines]
  · exact Nat.sub_lt_sub_left h (by omega)

/-- Extending a pattern can only make an anchored match harder. -/
theorem leads_of_leads_append {p q l : List Char} (h : leads (p ++ q) l = true) :
    leads p l = true := by
  induction p generalizing l with
  | nil => rfl
  | cons c cs ih =>
    cases l with
    | nil => simp [leads] at h
    | cons d ds =>
      simp only [List.cons_append, leads, Bool.and_eq_true] at h ⊢
      exact ⟨h.1, ih h.2⟩

/-- If a pattern does not occur, no extension of it occurs. -/
theorem firstHit_none_mono {p q l : List Char} (h : firstHit p l = none) :
    firstHit (p ++ q) l = none := by
  induction l with
  | nil =>
    simp only [firstHit] at h ⊢
    split at h
    · exact absurd h (by simp)
    · next hl =>
      split
      · next hl2 => exact absurd (leads_of_leads_append hl2) hl
      · rfl
  | cons c cs ih =>
    simp only [firstHit] at h ⊢
    split at h
    · exact absurd h (by simp)
    · next hl =>
      split
      · next hl2 => exact absurd (leads_of_leads_append hl2) hl
      · simp only [Option.map_eq_none'] at h ⊢
        exact ih h

/-- When the primary `const meta` search fails, the fallback pattern list
fails as well, because every fallback pattern extends `const meta`. -/
theorem firstHitAny_metaPatterns_none {content : List Char}
    (h : firstHit (("const meta").data) content = none) :
    firstHitAny metaPatterns content = none := by
  have h1 : firstHit (("const meta =").data) content = none := by
    have e : ("const meta =").data = ("const meta").data ++ (" =").data := by rfl
    rw [e]; exact firstHit_none_mono h
  have h2 : firstHit (("const meta:").data) content = none := by
    have e : ("const meta:").data = ("const meta").data ++ (":").data := by rfl
    rw [e]; exact firstHit_none_mono h
  simp [metaPatterns, firstHitAny, h1, h2]

/-- Configuration-block locator reduced to a single search for
`const meta` (the spec's simplified description). -/
def extractMetaSectionSingle (content : List Char) : Option (List Char) :=
  match firstHit (("const meta").data) content with
  | none => none
  | some i =>
    match indexOfFrom (("export default meta").data) content i with
    | none => none
    | some j => some ((content.drop i).take (j - i))

/-- C10: `extractMetaSection` returns a block iff `const meta` occurs and
`export default meta` occurs at or after it; the fallback pattern list can
never change the result, so the multi-pattern search equals the single
search for `const meta`. -/
theorem C10_meta_locator_single_search (content : List Char) :
    extractMetaSection content = extractMetaSectionSingle content ∧
    ((extractMetaSection content).isSome ↔
      ∃ i, firstHit (("const meta").data) content = some i ∧
        (indexOfFrom (("export default meta").data) content i).isSome) := by
  constructor
  · cases hp : firstHit (("const meta").data) content with
    | none =>
      simp [extractMetaSection, extractMetaSectionSingle, hp, firstHitAny_metaPatterns_none hp]
    | some i =>
      simp [extractMetaSection, extractMetaSectionSingle, hp]
  · cases hp : firstHit (("const meta").data) content with
    | none =>
      simp [extractMetaSection, hp, firstHitAny_metaPatterns_none hp]
    | some i =>
      cases hq : indexOfFrom (("export default meta").data) content i with
      | none => simp [extractMetaSection, hp, hq]
      | some j => simp [extractMetaSection, hp, hq]

/-- C2: the configuration result is absent exactly when one of the lookup
steps fails (no meta section, no `component:` key, or no backtick after
it), and a returned configuration record always carries a present
description. -/
theorem C2_config_absent_on_any_miss (content : List Char) :
    (parseMetaData content = none ↔
      extractMetaSection content = none ∨
      ∃ sec, extractMetaSection content = some sec ∧
        (firstHit (("component:").data) sec = none ∨
         ∃ ci, firstHit (("component:").data) sec = some ci ∧
           indexOfFrom (("\x60").data) sec ci = none)) ∧
    (∀ m, parseMetaData content = some m → m.componentDescription.isSome = true) := by
  constructor
  · cases hs : extractMetaSection content with
    | none => simp [parseMetaData, hs]
    | some sec =>
      cases hc : firstHit (("component:").data) sec with
      | none => simp [parseMetaData, hs, hc]
      | some ci =>
        cases hb : indexOfFrom (("\x60").data) sec ci with
        | none => simp [parseMetaData, hs, hc, hb]
        | some bi => simp [parseMetaData, hs, hc, hb]
  · intro m hm
    unfold parseMetaData at hm
    split at hm
    · exact absurd hm (by simp)
    · split at hm
      · exact absurd hm (by simp)
      · split at hm
        · exact absurd hm (by simp)
        · cases hm
          rfl

/-- The scanner produces nothing when no line matches a header shape. -/
theorem parseAux_nil_of_no_match {lines : List (List Char)}
    (hno : ∀ line ∈ lines, lineMatch line = none) (i : Nat) :
    parseAux lines i = [] := by
  have key : ∀ k i, lines.length - i ≤ k → parseAux lines i = [] := by
    intro k
    induction k with
    | zero =>
      intro i hi
      rw [parseAux]
      have hnotlt : ¬ i < lines.length := by omega
      simp [hnotlt]
    | succ k ih =>
      intro i hi
      rw [parseAux]
      split
      · next h =>
        have hm : lineMatch lines[i] = none := hno _ (lines.getElem_mem h)
        simp only [hm]
        exact ih (i + 1) (by omega)
      · rfl
  exact key (lines.length - i) i le_rfl

/-- C1: extraction is total — it is defined as a family of total
functions — and on inputs with none of the recognized shapes it degrades
to absent/empty results: no `const meta` marker means no configuration, no
matching header line means no exports, and the empty string yields an
absent configuration and an empty export list. -/
theorem C1_no_raise_and_empty_input (content : List Char) :
    (firstHit (("const meta").data) content = none → parseMetaData content = none) ∧
    ((∀ line ∈ splitLines content, lineMatch line = none) → parseStoryExports content = []) ∧
    parseMetaData [] = none ∧ parseStoryExports [] = [] := by
  refine ⟨?_, ?_, by decide, ?_⟩
  · intro h
    have hs : extractMetaSection content = none := by
      simp [extractMetaSection, h, firstHitAny_metaPatterns_none h]
    simp [parseMetaData, hs]
  · intro hno
    exact parseAux_nil_of_no_match hno 0
  · refine parseAux_nil_of_no_match ?_ 0
    intro line hline
    have : line = [] := by
      simpa [splitLines] using hline
    simp [this]
    decide

/-- Witness for C1 at a concrete unshaped input. -/
theorem C1_no_raise_and_empty_input_witness :
    parseMetaData (("hello").data) = none ∧ parseStoryExports (("hello").data) = [] :=
  ⟨(C1_no_raise_and_empty_input (("hello").data)).1 (by decide),
   (C1_no_raise_and_empty_input (("hello").data)).2.1 (by decide)⟩

/-- Witness for C2 at a concrete input carrying a full configuration
block: the produced record has a present description. -/
theorem C2_config_absent_on_any_miss_witness :
    (({ componentDescription :=
        some (("A button.").data) } : MetaData)).componentDescription.isSome = true :=
  (C2_config_absent_on_any_miss
      (("const meta = \x7b\n  component: \x60A button.\x60\n\x7d\nexport default meta").data)).2
    { componentDescription := some (("A button.").data) }
    (by decide)

/-- The counting loop counts exactly the lines the capture loop collects. -/
theorem countFrom_eq_length_captureFrom (ls : List (List Char)) (level : Int) :
    countFrom ls level = (captureFrom ls level).length := by
  induction ls generalizing level with
  | nil => rfl
  | cons line rest ih =>
    by_cases h : 0 < level
    · simp [countFrom, captureFrom, h, ih]
    · simp [countFrom, captureFrom, h]

/-- The function-shaped capture loop is the same loop. -/
theorem captureFromF_eq_captureFrom (ls : List (List Char)) (level : Int) :
    captureFromF ls level = captureFrom ls level := by
  induction ls generalizing level with
  | nil => rfl
  | cons line rest ih =>
    by_cases h : 0 < level
    · simp [captureFromF, captureFrom, h, ih]
    · simp [captureFromF, captureFrom, h]

/-- The function-shaped counting loop is the same loop. -/
theorem countFromF_eq_countFrom (ls : List (List Char)) (level : Int) :
    countFromF ls level = countFrom ls level := by
  induction ls generalizing level with
  | nil => rfl
  | cons line rest ih =>
    by_cases h : 0 < level
    · simp [countFromF, countFrom, h, ih]
    · simp [countFromF, countFrom, h]

/-- A non-positive level stops the capture loop at once. -/
theorem captureFrom_eq_nil_of_nonpos {level : Int} (h : ¬ 0 < level)
    (ls : List (List Char)) : captureFrom ls level = [] := by
  cases ls with
  | nil => rfl
  | cons line rest => simp [captureFrom, h]

/-- C6: the story line count is the number of captured body lines plus one
for the header; the function-shaped variants agree with the object-shaped
ones; and a line that brings the brace level to zero is still captured
(appended before its braces are counted), ending the capture. -/
theorem C6_count_is_captured_plus_one (lines : List (List Char)) (startIndex : Nat) :
    countStoryLines lines startIndex =
      (captureFrom (lines.drop (startIndex + 1)) 1).length + 1 ∧
    extractStoryContent lines startIndex =
      joinLines (captureFrom (lines.drop (startIndex + 1)) 1) ∧
    countFunctionStoryLines lines startIndex =
      (captureFromF (lines.drop (startIndex + 1)) 1).length + 1 ∧
    countFunctionStoryLines lines startIndex = countStoryLines lines startIndex ∧
    extractFunctionStoryContent lines startIndex = extractStoryContent lines startIndex ∧
    (∀ line rest level, 0 < level → braceDelta level line ≤ 0 →
      captureFrom (line :: rest) level = [line]) := by
  refine ⟨?_, rfl, ?_, ?_, ?_, ?_⟩
  · rw [countStoryLines, countFrom_eq_length_captureFrom]
    omega
  · rw [countFunctionStoryLines, countFromF_eq_countFrom, countFrom_eq_length_captureFrom,
      captureFromF_eq_captureFrom]
    omega
  · rw [countFunctionStoryLines, countStoryLines, countFromF_eq_countFrom]
  · rw [extractFunctionStoryContent, extractStoryContent, captureFromF_eq_captureFrom]
  · intro line rest level hpos hstop
    rw [captureFrom]
    simp only [hpos, if_true]
    rw [captureFrom_eq_nil_of_nonpos (by omega) rest]

/-- Witness for C6: a single closing-brace line at level one is captured
and terminates the body. -/
theorem C6_count_is_captured_plus_one_witness :
    captureFrom [("\x7d;").data, ("after").data] 1 = [("\x7d;").data] :=
  (C6_count_is_captured_plus_one [] 0).2.2.2.2.2 (("\x7d;").data) [("after").data] 1
    (by decide) (by decide)

/-- Position `p` of `content` holds a backtick preceded by an even number
of consecutive backslashes (an unescaped delimiter). -/
def unescapedBacktickAt (content : List Char) (p : Nat) : Prop :=
  content.get? p = some '\x60' ∧ countPrecedingBackslashes content p % 2 = 0

instance (content : List Char) (p : Nat) : Decidable (unescapedBacktickAt content p) := by
  unfold unescapedBacktickAt
  infer_instance

/-- Indexing a list equals taking the head of the dropped suffix. -/
theorem get?_eq_head?_drop (l : List Char) (n : Nat) : l.get? n = (l.drop n).head? := by
  induction l generalizing n with
  | nil => cases n <;> rfl
  | cons c cs ih =>
    cases n with
    | zero => rfl
    | succ m => simp [ih m]

/-- Dropping one more element from a suffix known in cons form. -/
theorem drop_succ_of_drop_cons {l rest : List Char} {c : Char} {pos : Nat}
    (h : l.drop pos = c :: rest) : l.drop (pos + 1) = rest := by
  rw [← List.tail_drop, h]
  rfl

/-- The backtick loop stops exactly at the first unescaped backtick at or
after its start position (or at the end of the content when there is
none), returning every character before that point. -/
theorem btAux_eq_take (content : List Char) :
    ∀ (k pos e : Nat), pos ≤ e → e - pos = k →
      ((e = content.length ∧
          ∀ p, pos ≤ p → p < content.length → ¬ unescapedBacktickAt content p) ∨
        (unescapedBacktickAt content e ∧
          ∀ p, pos ≤ p → p < e → ¬ unescapedBacktickAt content p)) →
      btAux content (content.drop pos) pos = (content.drop pos).take (e - pos) := by
  intro k
  induction k with
  | zero =>
    intro pos e hle hk hcond
    have he : e = pos := by omega
    rw [hk, List.take_zero]
    cases hd : content.drop pos with
    | nil => rfl
    | cons c rest =>
      have hlen : pos < content.length := by
        by_contra hc
        have hnil : content.drop pos = [] := List.drop_eq_nil_of_le (by omega)
        rw [hnil] at hd
        exact absurd hd (by simp)
      have hget : content.get? pos = some c := by
        rw [get?_eq_head?_drop, hd]; rfl
      rcases hcond with ⟨hA, _⟩ | ⟨hB, _⟩
      · omega
      · rw [he] at hB
        rcases hB with ⟨hbt, heven⟩
        have hc : c = '\x60' := by
          rw [hget] at hbt
          exact Option.some_inj.mp hbt
        simp [btAux, hc, heven]
  | succ k ih =>
    intro pos e hle hk hcond
    have hlt : pos < e := by omega
    cases hd : content.drop pos with
    | nil => simp [btAux]
    | cons c rest =>
      have hget : content.get? pos = some c := by
        rw [get?_eq_head?_drop, hd]; rfl
      have hlen : pos < content.length := by
        by_contra hc
        have hnil : content.drop pos = [] := List.drop_eq_nil_of_le (by omega)
        rw [hnil] at hd
        exact absurd hd (by simp)
      have hnot : ¬ unescapedBacktickAt content pos := by
        rcases hcond with ⟨_, hmin⟩ | ⟨_, hmin⟩
        · exact hmin pos le_rfl hlen
        · exact hmin pos le_rfl hlt
      have hstep : ¬ (c = '\x60' ∧ countPrecedingBackslashes content pos % 2 = 0) := by
        intro hand
        exact hnot ⟨by rw [hget, hand.1], hand.2⟩
      have hrest : content.drop (pos + 1) = rest := drop_succ_of_drop_cons hd
      have ihx := ih (pos + 1) e (by omega) (by omega) (by
        rcases hcond with ⟨hA, hmin⟩ | ⟨hB, hmin⟩
        · exact Or.inl ⟨hA, fun p hp hpl => hmin p (by omega) hpl⟩
        · exact Or.inr ⟨hB, fun p hp hpl => hmin p (by omega) hpl⟩)
      rw [hrest] at ihx
      have hk1 : e - (pos + 1) = k := by omega
      rw [hk1] at ihx
      simp only [btAux, hstep, if_false]
      rw [ihx, hk]
      simp [List.take_succ_cons]

/-- C5: the escape-aware span extractor terminates at the first backtick
preceded by an even number of consecutive backslashes (or runs to the end
of the content when there is none) and appends verbatim every character
before that point — in particular every backtick preceded by an odd
number of backslashes; a span containing an escaped backtick therefore
extracts with the backtick included literally, as the closed instance in
the second conjunct shows. -/
theorem C5_escape_aware_span (content : List Char) (startPos e : Nat)
    (hle : startPos + 1 ≤ e)
    (hcond :
      (e = content.length ∧
        ∀ p, startPos + 1 ≤ p → p < content.length → ¬ unescapedBacktickAt content p) ∨
      (unescapedBacktickAt content e ∧
        ∀ p, startPos + 1 ≤ p → p < e → ¬ unescapedBacktickAt content p)) :
    extractBacktickContent content startPos =
      jsTrim ((content.drop (startPos + 1)).take (e - (startPos + 1))) ∧
    extractBacktickContent (("\x60a\\\x60b\x60 tail").data) 0 = ("a\\\x60b").data := by
  constructor
  · unfold extractBacktickContent
    rw [btAux_eq_take content (e - (startPos + 1)) (startPos + 1) e hle rfl hcond]
  · decide

/-- Witness for C5 on a concrete unescaped span. -/
theorem C5_escape_aware_span_witness :
    extractBacktickContent (("\x60ab\x60").data) 0 =
      jsTrim ((("\x60ab\x60").data.drop 1).take 2) :=
  (C5_escape_aware_span (("\x60ab\x60").data) 0 3 (by omega)
    (Or.inr (by decide))).1

/-- C9: the export scan always advances — each per-export line count is at
least one even on an unterminated brace nest — zero matches yield the
empty sequence, and on a concrete unterminated nest the scan runs to the
end of the file and still returns a record. -/
theorem C9_scan_always_advances (lines : List (List Char)) (i : Nat) (content : List Char) :
    1 ≤ countStoryLines lines i ∧
    1 ≤ countFunctionStoryLines lines i ∧
    ((∀ line ∈ splitLines content, lineMatch line = none) → parseStoryExports content = []) ∧
    parseStoryExports (("export const A: Story = \x7b\nfoo").data) =
      [{ name := ("A").data, type := StoryType.demo }] := by
  refine ⟨?_, ?_, ?_, ?_⟩
  · rw [countStoryLines]; omega
  · rw [countFunctionStoryLines]; omega
  · intro hno
    exact parseAux_nil_of_no_match hno 0
  · have e2 : parseAux (splitLines (("export const A: Story = \x7b\nfoo").data)) 2 = [] := by
      rw [parseAux]
      rfl
    have e0 : parseAux (splitLines (("export const A: Story = \x7b\nfoo").data)) 0 =
        { name := ("A").data, type := StoryType.demo } ::
          parseAux (splitLines (("export const A: Story = \x7b\nfoo").data)) 2 := by
      rw [parseAux]
      rfl
    rw [parseStoryExports, e0, e2]

/-- Witness for C9 on a concrete matcher-free input. -/
theorem C9_scan_always_advances_witness :
    parseStoryExports (("just some text").data) = [] :=
  (C9_scan_always_advances [] 0 (("just some text").data)).2.2.1 (by decide)

theorem storyBuild_name (storyName storyContent : List Char) :
    (if storyName = ("API").data then createApiStory storyContent
     else createDemoStory storyName storyContent).name = storyName := by
  by_cases hn : storyName = ("API").data
  · simp [hn, createApiStory]
  · simp [hn, createDemoStory]

theorem parseAux_map_name (lines : List (List Char)) (i : Nat) :
    (parseAux lines i).map Story.name = (matchedHeaders lines i).map Prod.snd := by
  have key : ∀ k i, lines.length - i ≤ k →
      (parseAux lines i).map Story.name = (matchedHeaders lines i).map Prod.snd := by
    intro k
    induction k with
    | zero =>
      intro i hi
      rw [parseAux, matchedHeaders]
      have hn : ¬ i < lines.length := by omega
      simp [hn]
    | succ k ih =>
      intro i hi
      rw [parseAux, matchedHeaders]
      by_cases h : i < lines.length
      · simp only [dif_pos h]
        cases hm : lineMatch lines[i] with
        | none =>
          simp only [hm]
          exact ih (i + 1) (by omega)
        | some nb =>
          obtain ⟨storyName, isObj⟩ := nb
          simp only [hm, List.map_cons]
          have hcnt : 1 ≤ (if isObj = true then countStoryLines lines i
              else countFunctionStoryLines lines i) := by
            cases isObj <;> simp [countStoryLines, countFunctionStoryLines]
          refine congrArg₂ List.cons ?_ ?_
          · exact storyBuild_name storyName _
          · exact ih _ (by omega)
      · simp [h]
  exact key (lines.length - i) i le_rfl

theorem matchedHeaders_le_fst (lines : List (List Char)) (i : Nat) :
    ∀ x ∈ matchedHeaders lines i, i ≤ x.1 := by
  have key : ∀ k i, lines.length - i ≤ k → ∀ x ∈ matchedHeaders lines i, i ≤ x.1 := by
    intro k
    induction k with
    | zero =>
      intro i hi x hx
      rw [matchedHeaders] at hx
      have hn : ¬ i < lines.length := by omega
      simp [hn] at hx
    | succ k ih =>
      intro i hi x hx
      rw [matchedHeaders] at hx
      by_cases h : i < lines.length
      · simp only [dif_pos h] at hx
        cases hm : lineMatch lines[i] with
        | none =>
          simp only [hm] at hx
          have := ih (i + 1) (by omega) x hx
          omega
        | some nb =>
          obtain ⟨storyName, isObj⟩ := nb
          simp only [hm] at hx
          rcases List.mem_cons.mp hx with hx | hx
          · rw [hx]
          · have hcnt : 1 ≤ (if isObj = true then countStoryLines lines i
                else countFunctionStoryLines lines i) := by
              cases isObj <;> simp [countStoryLines, countFunctionStoryLines]
            have := ih _ (by omega) x hx
            omega
      · simp [h] at hx
  exact key (lines.length - i) i le_rfl

theorem matchedHeaders_pairwise (lines : List (List Char)) (i : Nat) :
    List.Pairwise (fun a b => a.1 < b.1) (matchedHeaders lines i) := by
  have key : ∀ k i, lines.length - i ≤ k →
      List.Pairwise (fun a b => a.1 < b.1) (matchedHeaders lines i) := by
    intro k
    induction k with
    | zero =>
      intro i hi
      rw [matchedHeaders]
      have hn : ¬ i < lines.length := by omega
      simp [hn]
    | succ k ih =>
      intro i hi
      rw [matchedHeaders]
      by_cases h : i < lines.length
      · simp only [dif_pos h]
        cases hm : lineMatch lines[i] with
        | none =>
          simp only [hm]
          exact ih (i + 1) (by omega)
        | some nb =>
          obtain ⟨storyName, isObj⟩ := nb
          simp only [hm]
          have hcnt : 1 ≤ (if isObj = true then countStoryLines lines i
              else countFunctionStoryLines lines i) := by
            cases isObj <;> simp [countStoryLines, countFunctionStoryLines]
          refine List.pairwise_cons.mpr ⟨?_, ih _ (by omega)⟩
          intro x hx
          have := matchedHeaders_le_fst lines _ x hx
          simp only
          omega
      · simp [h]
  exact key (lines.length - i) i le_rfl

theorem storyBuild_type_iff (storyName storyContent : List Char) :
    ((if storyName = ("API").data then createApiStory storyContent
      else createDemoStory storyName storyContent).type = StoryType.api ↔
     (if storyName = ("API").data then createApiStory storyContent
      else createDemoStory storyName storyContent).name = ("API").data) := by
  by_cases hn : storyName = ("API").data
  · simp [hn, createApiStory]
  · simp [hn, createDemoStory]

theorem parseAux_type_iff (lines : List (List Char)) (i : Nat) :
    ∀ s ∈ parseAux lines i, (s.type = StoryType.api ↔ s.name = ("API").data) := by
  have key : ∀ k i, lines.length - i ≤ k →
      ∀ s ∈ parseAux lines i, (s.type = StoryType.api ↔ s.name = ("API").data) := by
    intro k
    induction k with
    | zero =>
      intro i hi s hs
      rw [parseAux] at hs
      have hn : ¬ i < lines.length := by omega
      simp [hn] at hs
    | succ k ih =>
      intro i hi s hs
      rw [parseAux] at hs
      by_cases h : i < lines.length
      · simp only [dif_pos h] at hs
        cases hm : lineMatch lines[i] with
        | none =>
          simp only [hm] at hs
          exact ih (i + 1) (by omega) s hs
        | some nb =>
          obtain ⟨storyName, isObj⟩ := nb
          simp only [hm] at hs
          rcases List.mem_cons.mp hs with hs | hs
          · rw [hs]
            exact storyBuild_type_iff storyName _
          · have hcnt : 1 ≤ (if isObj = true then countStoryLines lines i
                else countFunctionStoryLines lines i) := by
              cases isObj <;> simp [countStoryLines, countFunctionStoryLines]
            exact ih _ (by omega) s hs
      · simp [h] at hs
  exact key (lines.length - i) i le_rfl

theorem parseAux_api_count (lines : List (List Char)) (i : Nat) :
    (parseAux lines i).countP (fun s => s.type == StoryType.api) =
      ((matchedHeaders lines i).map Prod.snd).countP (fun n => n == ("API").data) := by
  have key : ∀ k i, lines.length - i ≤ k →
      (parseAux lines i).countP (fun s => s.type == StoryType.api) =
        ((matchedHeaders lines i).map Prod.snd).countP (fun n => n == ("API").data) := by
    intro k
    induction k with
    | zero =>
      intro i hi
      rw [parseAux, matchedHeaders]
      have hn : ¬ i < lines.length := by omega
      simp [hn]
    | succ k ih =>
      intro i hi
      rw [parseAux, matchedHeaders]
      by_cases h : i < lines.length
      · simp only [dif_pos h]
        cases hm : lineMatch lines[i] with
        | none =>
          simp only [hm]
          exact ih (i + 1) (by omega)
        | some nb =>
          obtain ⟨storyName, isObj⟩ := nb
          simp only [hm, List.map_cons, List.countP_cons]
          have hcnt : 1 ≤ (if isObj = true then countStoryLines lines i
              else countFunctionStoryLines lines i) := by
            cases isObj <;> simp [countStoryLines, countFunctionStoryLines]
          rw [ih _ (by omega)]
          by_cases hn : storyName = ("API").data
          · simp [hn, createApiStory]
          · simp [hn, createDemoStory]
      · simp [h]
  exact key (lines.length - i) i le_rfl

/-- C3: the scanner emits exactly one record per matched header, in the
order the headers are matched — the record names are the matched-header
names, the matched positions are strictly increasing, the output length
equals the number of matched headers — and repeated export names are not
merged, as the closed duplicate-name instance shows. -/
theorem C3_export_order_preserved (content : List Char) :
    (parseStoryExports content).map Story.name =
      (matchedHeaders (splitLines content) 0).map Prod.snd ∧
    List.Pairwise (fun a b => a.1 < b.1) (matchedHeaders (splitLines content) 0) ∧
    (parseStoryExports content).length = (matchedHeaders (splitLines content) 0).length ∧
    parseStoryExports
        (("export const Primary: Story = \x7b\n\x7d\nexport const Primary: Story = \x7b\n\x7d").data) =
      [{ name := ("Primary").data, type := StoryType.demo },
       { name := ("Primary").data, type := StoryType.demo }] := by
  refine ⟨parseAux_map_name (splitLines content) 0, matchedHeaders_pairwise (splitLines content) 0, ?_, ?_⟩
  · have hmap := parseAux_map_name (splitLines content) 0
    have h1 := congrArg List.length hmap
    simpa [parseStoryExports] using h1
  · have e4 : parseAux (splitLines
        (("export const Primary: Story = \x7b\n\x7d\nexport const Primary: Story = \x7b\n\x7d").data)) 4 = [] := by
      rw [parseAux]
      rfl
    have e2 : parseAux (splitLines
        (("export const Primary: Story = \x7b\n\x7d\nexport const Primary: Story = \x7b\n\x7d").data)) 2 =
        { name := ("Primary").data, type := StoryType.demo } ::
          parseAux (splitLines
            (("export const Primary: Story = \x7b\n\x7d\nexport const Primary: Story = \x7b\n\x7d").data)) 4 := by
      rw [parseAux]
      rfl
    have e0 : parseAux (splitLines
        (("export const Primary: Story = \x7b\n\x7d\nexport const Primary: Story = \x7b\n\x7d").data)) 0 =
        { name := ("Primary").data, type := StoryType.demo } ::
          parseAux (splitLines
            (("export const Primary: Story = \x7b\n\x7d\nexport const Primary: Story = \x7b\n\x7d").data)) 2 := by
      rw [parseAux]
      rfl
    rw [parseStoryExports, e0, e2, e4]

/-- C4: a produced record is of reference kind exactly when its export
name is the case-sensitive string `API`; the number of reference records
equals the number of matched headers named `API`; in particular an input
whose matched headers contain exactly one `API` yields exactly one
reference record, wherever it appears. -/
theorem C4_api_dispatch (content : List Char) :
    (∀ s ∈ parseStoryExports content, (s.type = StoryType.api ↔ s.name = ("API").data)) ∧
    (parseStoryExports content).countP (fun s => s.type == StoryType.api) =
      ((matchedHeaders (splitLines content) 0).map Prod.snd).countP
        (fun n => n == ("API").data) ∧
    (((matchedHeaders (splitLines content) 0).map Prod.snd).countP
        (fun n => n == ("API").data) = 1 →
      (parseStoryExports content).countP (fun s => s.type == StoryType.api) = 1) := by
  refine ⟨parseAux_type_iff (splitLines content) 0, parseAux_api_count (splitLines content) 0, ?_⟩
  intro h1
  rw [parseStoryExports, parseAux_api_count (splitLines content) 0, h1]

/-- Witness for C4: an input with one `API` export placed after another
export yields exactly one reference record. -/
theorem C4_api_dispatch_witness :
    (parseStoryExports
        (("export const B: Story = \x7b\n\x7d\nexport const API: Story = \x7b\n\x7d").data)).countP
      (fun s => s.type == StoryType.api) = 1 := by
  have m4 : matchedHeaders (splitLines
      (("export const B: Story = \x7b\n\x7d\nexport const API: Story = \x7b\n\x7d").data)) 4 = [] := by
    rw [matchedHeaders]
    rfl
  have m2 : matchedHeaders (splitLines
      (("export const B: Story = \x7b\n\x7d\nexport const API: Story = \x7b\n\x7d").data)) 2 =
      (2, ("API").data) :: matchedHeaders (splitLines
        (("export const B: Story = \x7b\n\x7d\nexport const API: Story = \x7b\n\x7d").data)) 4 := by
    rw [matchedHeaders]
    rfl
  have m0 : matchedHeaders (splitLines
      (("export const B: Story = \x7b\n\x7d\nexport const API: Story = \x7b\n\x7d").data)) 0 =
      (0, ("B").data) :: matchedHeaders (splitLines
        (("export const B: Story = \x7b\n\x7d\nexport const API: Story = \x7b\n\x7d").data)) 2 := by
    rw [matchedHeaders]
    rfl
  refine (C4_api_dispatch
      (("export const B: Story = \x7b\n\x7d\nexport const API: Story = \x7b\n\x7d").data)).2.2 ?_
  rw [m0, m2, m4]
  decide

/-- A successful leftmost scan identifies the first suffix on which the
anchored matcher succeeds. -/
theorem scanFor_some_spec {m : List Char → Option (List Char)} {l r : List Char}
    (h : scanFor m l = some r) :
    ∃ i, i ≤ l.length ∧ m (l.drop i) = some r ∧ ∀ j, j < i → m (l.drop j) = none := by
  induction l with
  | nil => exact ⟨0, by omega, h, fun j hj => absurd hj (by omega)⟩
  | cons c rest ih =>
    rw [scanFor] at h
    cases hm : m (c :: rest) with
    | some r' =>
      rw [hm] at h
      exact ⟨0, by omega, by simpa [hm] using h, fun j hj => absurd hj (by omega)⟩
    | none =>
      rw [hm] at h
      obtain ⟨i, hi, hsome, hmin⟩ := ih h
      refine ⟨i + 1, by simp; omega, by simpa using hsome, ?_⟩
      intro j hj
      cases j with
      | zero => exact hm
      | succ j' => simpa using hmin j' (by omega)

/-- A successful lazy split takes the shortest prefix whose complement
satisfies the terminator. -/
theorem lazySplit_some_spec {stop : List Char → Bool} {l cap : List Char}
    (h : lazySplit stop l = some cap) :
    ∃ n, n ≤ l.length ∧ cap = l.take n ∧ stop (l.drop n) = true ∧
      ∀ k, k < n → stop (l.drop k) = false := by
  induction l generalizing cap with
  | nil =>
    rw [lazySplit] at h
    split at h
    · next hstop =>
      cases h
      exact ⟨0, by omega, rfl, hstop, fun k hk => absurd hk (by omega)⟩
    · exact absurd h (by simp)
  | cons c rest ih =>
    rw [lazySplit] at h
    split at h
    · next hstop =>
      cases h
      exact ⟨0, by omega, rfl, hstop, fun k hk => absurd hk (by omega)⟩
    · next hstop =>
      simp only [Option.map_eq_some'] at h
      obtain ⟨cap', hcap', rfl⟩ := h
      obtain ⟨n, hn, hcapeq, hstopn, hmin⟩ := ih hcap'
      refine ⟨n + 1, by simp; omega, by simp [hcapeq], by simpa using hstopn, ?_⟩
      intro k hk
      cases k with
      | zero => simpa using Bool.of_not_eq_true hstop
      | succ k' => simpa using hmin k' (by omega)

/-- C8: a present description comes from the first suffix where the
`story:` matcher succeeds; that matcher captures the shortest run after
the key (whitespace skipped) up to the first terminator — a closing brace
preceded by a comma, or a bare closing brace — and the result is trimmed
and quote-stripped. The quote-stripping rule removes one matching pair of
double or single quotes, or otherwise one leading and one trailing quote
character; a nested object literal after `story:` is truncated at the
first bare closing brace, as the closed instance shows. -/
theorem C8_story_description_rule (content : List Char) :
    (∀ d, extractStoryDescription content = some d →
      ∃ i cap, i ≤ content.length ∧
        matchStoryAt (content.drop i) = some cap ∧
        (∀ j, j < i → matchStoryAt (content.drop j) = none) ∧
        d = cleanQuotes (jsTrim cap)) ∧
    (∀ suffix cap, matchStoryAt suffix = some cap →
      leads (("story:").data) suffix = true ∧
      ∃ n, n ≤ ((suffix.drop 6).dropWhile isJsWs).length ∧
        cap = ((suffix.drop 6).dropWhile isJsWs).take n ∧
        storyTermAt (((suffix.drop 6).dropWhile isJsWs).drop n) = true ∧
        ∀ k, k < n → storyTermAt (((suffix.drop 6).dropWhile isJsWs).drop k) = false) ∧
    extractStoryDescription (("story: \x27desc\x27, \x7d").data) = some (("desc").data) ∧
    extractStoryDescription (("story: \x7b a: \x7b b: 1 \x7d \x7d").data) =
      some (("\x7b a: \x7b b: 1").data) ∧
    (∀ xs : List Char, cleanQuotes ('\x22' :: (xs ++ ['\x22'])) = xs) ∧
    (∀ xs : List Char, cleanQuotes ('\x27' :: (xs ++ ['\x27'])) = xs) ∧
    (∀ xs : List Char, cleanQuotes ('\x22' :: (xs ++ ['\x27'])) = xs) := by
  refine ⟨?_, ?_, by decide, by decide, ?_, ?_, ?_⟩
  · intro d hd
    unfold extractStoryDescription at hd
    cases hs : scanFor matchStoryAt content with
    | none => rw [hs] at hd; exact absurd hd (by simp)
    | some cap =>
      rw [hs] at hd
      simp only [Option.map_some'] at hd
      obtain ⟨i, hi, hsome, hmin⟩ := scanFor_some_spec hs
      exact ⟨i, cap, hi, hsome, hmin, (Option.some_inj.mp hd).symm⟩
  · intro suffix cap hm
    unfold matchStoryAt at hm
    split at hm
    · next hleads =>
      obtain ⟨n, hn, hcapeq, hstopn, hmin⟩ := lazySplit_some_spec hm
      exact ⟨hleads, n, hn, hcapeq, hstopn, hmin⟩
    · exact absurd hm (by simp)
  · intro xs
    have hlast : ('\x22' :: (xs ++ ['\x22'])).getLast? = some '\x22' := by
      rw [← List.cons_append, List.getLast?_concat]
    simp [cleanQuotes, hlast]
  · intro xs
    have hlast : ('\x27' :: (xs ++ ['\x27'])).getLast? = some '\x27' := by
      rw [← List.cons_append, List.getLast?_concat]
    have hne : ('\x27' : Char) ≠ '\x22' := by decide
    simp [cleanQuotes, hlast, hne]
  · intro xs
    have hlast : ('\x22' :: (xs ++ ['\x27'])).getLast? = some '\x27' := by
      rw [← List.cons_append, List.getLast?_concat]
    have hne : ('\x27' : Char) ≠ '\x22' := by decide
    have hne2 : ('\x22' : Char) ≠ '\x27' := by decide
    have hlast2 : (xs ++ ['\x27']).getLast? = some '\x27' := List.getLast?_concat _
    simp [cleanQuotes, hlast, hne, hne2, hlast2]

theorem head?_dropWhile_false {p : Char → Bool} :
    ∀ (l : List Char) (c : Char), (l.dropWhile p).head? = some c → p c = false := by
  intro l
  induction l with
  | nil => intro c h; exact absurd h (by simp)
  | cons d ds ih =>
    intro c h
    by_cases hp : p d
    · rw [List.dropWhile_cons_of_pos hp] at h
      exact ih c h
    · rw [List.dropWhile_cons_of_neg hp] at h
      cases h
      exact Bool.of_not_eq_true hp

theorem dropWhile_jsTrim (l : List Char) : (jsTrim l).dropWhile isJsWs = jsTrim l := by
  cases h : jsTrim l with
  | nil => rfl
  | cons c t =>
    have hc : isJsWs c = false := by
      have h1 : ((l.dropWhile isJsWs).reverse.dropWhile isJsWs).reverse = c :: t := h
      have h2 : ((l.dropWhile isJsWs).reverse.dropWhile isJsWs).getLast? = some c := by
        rw [← List.head?_reverse, h1]
        rfl
      have hne : (l.dropWhile isJsWs).reverse.dropWhile isJsWs ≠ [] := by
        intro hz
        rw [hz] at h1
        exact absurd h1 (by simp)
      have h3 : ((l.dropWhile isJsWs).reverse.dropWhile isJsWs).getLast? =
          ((l.dropWhile isJsWs).reverse).getLast? := by
        clear h1 h2
        generalize (l.dropWhile isJsWs).reverse = x at hne ⊢
        induction x with
        | nil => simp [List.dropWhile] at hne
        | cons d ds ih =>
          by_cases hp : isJsWs d
          · rw [List.dropWhile_cons_of_pos hp] at hne ⊢
            rw [ih hne]
            cases hds : ds with
            | nil =>
              rw [hds] at hne
              simp [List.dropWhile] at hne
            | cons e es => rw [List.getLast?_cons_cons]
          · rw [List.dropWhile_cons_of_neg hp]
      have h4 : ((l.dropWhile isJsWs).reverse).getLast? = (l.dropWhile isJsWs).head? := by
        rw [List.getLast?_reverse]
      have h5 : (l.dropWhile isJsWs).head? = some c := by
        rw [← h4, ← h3, h2]
      exact head?_dropWhile_false l c h5
    rw [List.dropWhile_cons_of_neg (by simp [hc])]

theorem jsTrim_idempotent (l : List Char) : jsTrim (jsTrim l) = jsTrim l := by
  have h1 : jsTrim (jsTrim l) = ((jsTrim l).reverse.dropWhile isJsWs).reverse := by
    rw [jsTrim, dropWhile_jsTrim]
  rw [h1]
  have h2 : (jsTrim l).reverse = (l.dropWhile isJsWs).reverse.dropWhile isJsWs := by
    rw [jsTrim, List.reverse_reverse]
  rw [h2, List.dropWhile_idempotent, ← h2, List.reverse_reverse]

/-- C7 counterexample: the bare inline-function export written as a single
line — exactly the string named by the claim — produces a record whose
code field is absent, not `<Y/>`, because the body capture starts at the
line after the header and captures nothing. -/
theorem C7_single_line_secondary_has_no_code :
    parseStoryExports (("export const Secondary = () => \x7b return <Y/>; \x7d;").data) =
      [{ name := ("Secondary").data, type := StoryType.demo }] := by
  have e1 : parseAux (splitLines
      (("export const Secondary = () => \x7b return <Y/>; \x7d;").data)) 1 = [] := by
    rw [parseAux]
    rfl
  have e0 : parseAux (splitLines
      (("export const Secondary = () => \x7b return <Y/>; \x7d;").data)) 0 =
      { name := ("Secondary").data, type := StoryType.demo } ::
        parseAux (splitLines
          (("export const Secondary = () => \x7b return <Y/>; \x7d;").data)) 1 := by
    rw [parseAux]
    rfl
  rw [parseStoryExports, e0, e1]

/-- C7 (amended): the render extractor prefers a `render:`-keyed body; on
bodies without one the parenthesised-return rule and then the
first-semicolon return rule apply to the whole body; nothing matching
yields an absent field; any produced code is trimmed; and a bare
inline-function export whose body lines follow the header yields
`exampleCode` `<Y/>` with display name and description absent, while the
single-line form captures an empty body and yields no code. -/
theorem C7_render_code_rules (body : List Char) :
    (scanFor matchRenderAt body = none →
      extractRenderCode body =
        (match scanFor matchReturnParenAt body with
         | some cap => some (jsTrim cap)
         | none => (scanFor matchReturnSimpleAt body).map jsTrim)) ∧
    (scanFor matchRenderAt body = none →
      scanFor matchReturnParenAt body = none →
      scanFor matchReturnSimpleAt body = none →
      extractRenderCode body = none) ∧
    (∀ c, extractRenderCode body = some c → jsTrim c = c) ∧
    parseStoryExports (("export const Secondary = () => \x7b\n  return <Y/>;\n\x7d;").data) =
      [{ name := ("Secondary").data, type := StoryType.demo,
         code := some (("<Y/>").data) }] := by
  refine ⟨?_, ?_, ?_, ?_⟩
  · intro hr
    rw [extractRenderCode, hr]
    cases hp : scanFor matchReturnParenAt body with
    | some cap => simp [hp]
    | none =>
      cases hs : scanFor matchReturnSimpleAt body with
      | some cap => simp [hp, hs]
      | none => simp [hp, hs]
  · intro hr hp hs
    rw [extractRenderCode, hr, hp, hs]
  · intro c hc
    rw [extractRenderCode] at hc
    cases hr : scanFor matchRenderAt body with
    | none =>
      rw [hr] at hc
      cases hp : scanFor matchReturnParenAt body with
      | some cap =>
        rw [hp] at hc
        cases hc
        exact jsTrim_idempotent cap
      | none =>
        rw [hp] at hc
        cases hs : scanFor matchReturnSimpleAt body with
        | some cap =>
          rw [hs] at hc
          cases hc
          exact jsTrim_idempotent cap
        | none => rw [hs] at hc; exact absurd hc (by simp)
    | some rawBody =>
      rw [hr] at hc
      simp only at hc
      cases hp : scanFor matchParenDollarAt (jsTrim rawBody) with
      | some cap =>
        rw [hp] at hc
        cases hc
        exact jsTrim_idempotent cap
      | none =>
        rw [hp] at hc
        cases hs : scanFor matchSimpleDollarAt (jsTrim rawBody) with
        | some cap =>
          rw [hs] at hc
          cases hc
          exact jsTrim_idempotent cap
        | none =>
          rw [hs] at hc
          cases hl : scanFor matchLazyDollarAt (jsTrim rawBody) with
          | some cap =>
            rw [hl] at hc
            cases hc
            exact jsTrim_idempotent cap
          | none => rw [hl] at hc; exact absurd hc (by simp)
  · have e3 : parseAux (splitLines
        (("export const Secondary = () => \x7b\n  return <Y/>;\n\x7d;").data)) 3 = [] := by
      rw [parseAux]
      rfl
    have e0 : parseAux (splitLines
        (("export const Secondary = () => \x7b\n  return <Y/>;\n\x7d;").data)) 0 =
        { name := ("Secondary").data, type := StoryType.demo,
          code := some (("<Y/>").data) } ::
          parseAux (splitLines
            (("export const Secondary = () => \x7b\n  return <Y/>;\n\x7d;").data)) 3 := by
      rw [parseAux]
      rfl
    rw [parseStoryExports, e0, e3]

/-- Witness for C7 on a concrete function-shaped body. -/
theorem C7_render_code_rules_witness :
    jsTrim (("<Y/>").data) = ("<Y/>").data :=
  (C7_render_code_rules (("  return <Y/>;\n\x7d;").data)).2.2.1 (("<Y/>").data) (by decide)

/-- Witness for C8 on a concrete quoted description. -/
theorem C8_story_description_rule_witness :
    ∃ i cap, i ≤ (("story: \x27x\x27\x7d").data).length ∧
      matchStoryAt ((("story: \x27x\x27\x7d").data).drop i) = some cap ∧
      (∀ j, j < i → matchStoryAt ((("story: \x27x\x27\x7d").data).drop j) = none) ∧
      ("x").data = cleanQuotes (jsTrim cap) :=
  (C8_story_description_rule (("story: \x27x\x27\x7d").data)).1 (("x").data) (by decide)
